import Mathlib

/-!
Verification development for the GeoTIFFTileSource raster pipeline.

The definitions below are a shallow embedding of the JavaScript sources:
  * `src/formats/tiff.worker.js` — half-float codec (`f32ToF16Bits`),
    mode classifier (`inferFromTIFFTags`), data-mode GPU packer
    (`packBandsAsData`), raster decode error handling
    (`decodeRasterFromArrayBuffer` / worker `onmessage`);
  * `src/utils/Converters.js` — colour-space converters (`RGBAfromYCbCr`);
  * `src/utils/consoleOnce.js` — warning dedup (`logOnce`);
  * the plugin module — `deepMerge`, `RawTiffWorkerPool.request`.

JavaScript numbers are modelled as exact rationals (`ℚ`); typed-array
stores are modelled by the ECMAScript conversion operations
(`ToUint8Clamp`, `ToUint8`); 32-bit float values are modelled through
their IEEE-754 bit patterns (`ℕ` below `2^32`).
-/

namespace GeoTiff

/-- ECMAScript `ToUint8Clamp` (the `Uint8ClampedArray` element store):
clamp to `[0,255]`, then round to nearest with ties to even. -/
def toUint8Clamp (q : ℚ) : ℕ :=
  if q ≤ 0 then 0
  else if 255 ≤ q then 255
  else
    let f : ℕ := (⌊q⌋).toNat
    if q - f < 1/2 then f
    else if (1:ℚ)/2 < q - f then f + 1
    else if f % 2 = 0 then f else f + 1

/-- Truncation of a rational toward zero (ECMAScript `ToIntegerOrInfinity`
on a finite number). -/
def ratTrunc (q : ℚ) : ℤ := q.num / (q.den : ℤ)

/-- ECMAScript `ToUint8` (the `Uint8Array` element store): truncate toward
zero, then take the value modulo `2^8`. -/
def jsToUint8 (q : ℚ) : ℕ := ((ratTrunc q) % 256).toNat

/-!
## Half-float codec (`f32ToF16Bits`, tiff.worker.js lines 122-162)

The JS function writes the incoming number into a `Float32Array` and
manipulates the resulting 32-bit pattern.  We model the pattern
manipulation on the already-decomposed sign / exponent / mantissa
fields, exactly mirroring the source's control flow.
-/

/-- Core of `f32ToF16Bits` after field decomposition
(`sign = (x>>31)&1`, `exp = (x>>23)&0xFF`, `mant = x&0x7FFFFF`).
The rebias `exp - 127 + 15` is a JS signed integer, hence `ℤ` here.
The source's `mant & 0x00800000` test is applied to `mant + 0x1000 < 2^24`,
so it is the test `2^23 ≤ mant + 0x1000`; the source's `|` assembles
disjoint bit fields and is addition. -/
def f16FromFields (sign exp mant : ℕ) : ℕ :=
  if exp = 0xFF then
    -- NaN / Inf
    if mant ≠ 0 then sign * 2^15 + 0x7E00 else sign * 2^15 + 0x7C00
  else if exp = 0 then
    -- f32 subnormal / zero: flush
    sign * 2^15
  else
    let er : ℤ := (exp : ℤ) - 127 + 15
    if 0x1F ≤ er then sign * 2^15 + 0x7C00
    else if er ≤ 0 then sign * 2^15
    else
      let m2 := mant + 0x1000
      if 2^23 ≤ m2 then
        -- carry out of the mantissa: mant = 0, exp += 1, re-check overflow
        if 0x1F ≤ er + 1 then sign * 2^15 + 0x7C00
        else sign * 2^15 + (er + 1).toNat * 2^10
      else sign * 2^15 + er.toNat * 2^10 + m2 / 2^13

/-- The `f32ToF16Bits` on the 32-bit pattern `x` of the input float
(tiff.worker.js lines 122-162). -/
def f32ToF16Bits (x : ℕ) : ℕ :=
  f16FromFields (x / 2^31 % 2) (x / 2^23 % 256) (x % 2^23)

/-- Sign field of a 32-bit float pattern. -/
def f32Sign (x : ℕ) : ℕ := x / 2^31 % 2

/-- Exponent field of a 32-bit float pattern. -/
def f32Exp (x : ℕ) : ℕ := x / 2^23 % 256

/-- Mantissa field of a 32-bit float pattern. -/
def f32Mant (x : ℕ) : ℕ := x % 2^23

/-- A pattern denotes a finite 32-bit float iff its exponent field is not
all ones. -/
def f32IsFinite (x : ℕ) : Prop := f32Exp x ≠ 0xFF

instance (x : ℕ) : Decidable (f32IsFinite x) := by
  unfold f32IsFinite; infer_instance

/-- Magnitude denoted by a finite IEEE-754 binary32 bit pattern:
`2^(e-127) * (1 + m/2^23)` for normals and `2^(-126) * (m/2^23)` for
subnormals, written over a common denominator `2^150` (resp. `2^149`). -/
def f32Mag (x : ℕ) : ℚ :=
  if f32Exp x = 0 then (f32Mant x : ℚ) / 2^149
  else (2^(f32Exp x) * (2^23 + (f32Mant x : ℚ))) / 2^150

/-- Real value denoted by a finite IEEE-754 binary32 bit pattern. -/
def f32ValOfBits (x : ℕ) : ℚ :=
  if f32Sign x = 1 then -f32Mag x else f32Mag x

/-- Real value denoted by an IEEE-754 binary16 bit pattern (finite
patterns; exponent field 31 yields `0` here, callers check finiteness). -/
def f16BitsToRat (b : ℕ) : ℚ :=
  let s : ℕ := b / 2^15 % 2
  let e : ℕ := b / 2^10 % 32
  let m : ℕ := b % 2^10
  let mag : ℚ :=
    if e = 0 then (m : ℚ) / 2^24
    else if e = 31 then 0
    else (2^e * (2^10 + m) : ℚ) / 2^25
  if s = 1 then -mag else mag

/-- Fuel-driven floor of `log₂` on naturals (structural recursion so that
the kernel can evaluate it). -/
def natLog2Aux : ℕ → ℕ → ℕ
  | 0, _ => 0
  | fuel + 1, n => if n ≤ 1 then 0 else natLog2Aux fuel (n / 2) + 1

/-- The `⌊log₂ n⌋` for `n ≥ 1` (and `0` for `n ∈ {0,1}`). -/
def natLog2 (n : ℕ) : ℕ := natLog2Aux n n

/-- The `2^k * d ≤ p` for an integer exponent `k`, expressed over naturals. -/
def pow2MulLe (k : ℤ) (d p : ℕ) : Bool :=
  if 0 ≤ k then 2 ^ k.toNat * d ≤ p else d ≤ 2 ^ (-k).toNat * p

/-- Round the nonnegative fraction `p / d` (with `d ≠ 0`) to the nearest
natural, ties to even. -/
def roundHalfEvenNat (p d : ℕ) : ℕ :=
  let f := p / d
  let r := p % d
  if 2 * r < d then f
  else if d < 2 * r then f + 1
  else if f % 2 = 0 then f else f + 1

/-- IEEE-754 binary32 bit pattern of a rational (round to nearest, ties
to even) — the model of the JS store `floatView[0] = val`, which is how
`f32ToF16Bits` receives its argument.  `0` maps to `+0`. -/
def f32BitsOfRat (q : ℚ) : ℕ :=
  if q = 0 then 0
  else
    let s : ℕ := if q < 0 then 1 else 0
    let p : ℕ := q.num.natAbs
    let d : ℕ := q.den
    -- ⌊log₂ |q|⌋: the naive difference of the operands' bit lengths,
    -- corrected downward when 2^(difference) exceeds |q|
    let k0 : ℤ := (natLog2 p : ℤ) - natLog2 d
    let k : ℤ := if pow2MulLe k0 d p then k0 else k0 - 1
    let e0 : ℤ := max k (-126)
    let t : ℤ := 23 - e0
    let n : ℕ :=
      if 0 ≤ t then roundHalfEvenNat (p * 2 ^ t.toNat) d
      else roundHalfEvenNat p (d * 2 ^ (-t).toNat)
    let en : ℤ × ℕ := if 2^24 ≤ n then (e0 + 1, 2^23) else (e0, n)
    if 127 < en.1 then s * 2^31 + 0xFF * 2^23  -- overflow to infinity
    else if en.2 < 2^23 then s * 2^31 + en.2  -- subnormal (e0 = -126)
    else s * 2^31 + ((en.1 + 127).toNat) * 2^23 + (en.2 - 2^23)

/-!
## Raster / format data model (tiff.worker.js)

A band is a typed array; only the constructor kind and the sample values
matter to the packer.  A `none` sample read models a JS `undefined`
(which arithmetic turns into `NaN`).
-/

/-- Element kind of the JS typed array backing a band. -/
inductive BandKind
  | u8 | u8c | u16 | i16 | u32 | i32 | f32 | f64
deriving DecidableEq

/-- The `b instanceof Uint8Array || b instanceof Uint8ClampedArray`. -/
def BandKind.isU8 : BandKind → Bool
  | .u8 => true
  | .u8c => true
  | _ => false

/-- The `band instanceof Float32Array || band instanceof Float64Array`. -/
def BandKind.isFloat : BandKind → Bool
  | .f32 => true
  | .f64 => true
  | _ => false

/-- One decoded band: constructor kind plus sample values. -/
structure Band where
  kind : BandKind
  samples : List ℚ

/-- Canonical raster record as built by `decodeRasterFromArrayBuffer`
(tiff.worker.js lines 505-515). -/
structure Raster where
  width : ℕ
  height : ℕ
  bands : List Band
  samplesPerPixel : ℕ
  bitsPerSample : List ℕ
  sampleFormat : Option (List ℕ)
  photometricInterpretation : Option ℕ
  colorMap : Option (List ℚ)

/-- The `format.gpu` options (`options.js`): both keys optional;
`preferRGBA8` defaults to true (`gpu.preferRGBA8 !== false`),
`forceRGBA16F` defaults to false (`!!gpu.forceRGBA16F`). -/
structure GpuOpts where
  preferRGBA8 : Option Bool
  forceRGBA16F : Option Bool

/-- Resolved `format` override consumed by the worker.  `interpretation`
is a raw string in JS (`"auto" | "image" | "data"`), absent meaning
`"auto"`; `channels` entries may be `null` (modelled `none`). -/
structure FormatOpts where
  interpretation : Option String
  channels : Option (List (Option ℤ))
  gpu : Option GpuOpts

/-- One GPU texture pack (`packs` array member).  `data` holds the stored
element values: bytes for `"RGBA8"`, half-float bit patterns for
`"RGBA16F"`. -/
structure TexturePack where
  format : String
  data : List ℕ
  channels : List ℤ
  scale : List ℚ
  offset : List ℚ

/-- The texture-set record returned by `packBandsAsData` /
`packCanonicalRGBA`. -/
structure TextureSet where
  width : ℕ
  height : ℕ
  mode : String
  channelCount : ℕ
  packs : List TexturePack

/-!
## Mode classifier (`inferFromTIFFTags`, tiff.worker.js lines 92-116,
and the mode resolution of `rasterPayloadToTextureSet`, lines 547-552)
-/

/-- The `inferFromTIFFTags`: photometric-interpretation tags 2 (RGB),
6 (YCbCr), 5 (CMYK), 8 (CIELab), 3 (Palette) imply `"image"`;
tags 1 (BlackIsZero) / 0 (WhiteIsZero) with a single sample per pixel
imply `"image"`; everything else is `"data"`.  `spp` is
`raster.samplesPerPixel || raster.bands.length`. -/
def inferFromTIFFTags (r : Raster) : String :=
  let spp := if r.samplesPerPixel = 0 then r.bands.length else r.samplesPerPixel
  let pi := r.photometricInterpretation
  if pi = some 2 ∨ pi = some 6 ∨ pi = some 5 ∨ pi = some 8 ∨ pi = some 3 then ("image")
  else if (pi = some 1 ∨ pi = some 0) ∧ spp = 1 then ("image")
  else ("data")

/-- Mode resolution of `rasterPayloadToTextureSet`:
`interpretation = format.interpretation || "auto"`, used verbatim unless
`"auto"`, in which case the inferred mode is used. -/
def resolveMode (r : Raster) (fmt : FormatOpts) : String :=
  let interpretation := fmt.interpretation.getD ("auto")
  if interpretation = "auto" then inferFromTIFFTags r else interpretation

/-- Modelled from the spec (§4.4), the `auto` half of the classifier:
the displayable-image tags (RGB, YCbCr, CMYK, CIE-Lab, Palette) classify
as image, single-band black-is-zero / white-is-zero classifies as image,
and every other input — including an absent tag and multi-band rasters
with no recognized tag — classifies as data. -/
def autoClassifySpec (r : Raster) : String :=
  let bandCount := if r.samplesPerPixel = 0 then r.bands.length else r.samplesPerPixel
  match r.photometricInterpretation with
  | some 2 | some 6 | some 5 | some 8 | some 3 => "image"
  | some 1 | some 0 => if bandCount = 1 then ("image") else ("data")
  | _ => "data"

/-- Modelled from the spec (§4.4), for comparison with the code's
classifier: a forced interpretation is used verbatim; otherwise (auto or
absent) the auto classification applies. -/
def classifySpecModel (r : Raster) (fmt : FormatOpts) : String :=
  match fmt.interpretation with
  | some ("image") => "image"
  | some ("data") => "data"
  | some ("auto") | none => autoClassifySpec r
  | some other => other

/-!
## Data-mode GPU packer (`packBandsAsData`, tiff.worker.js lines 355-464)
-/

/-- The `channels[i] ?? -1`: a missing or `null` entry becomes the sentinel. -/
def chanAt (c : List (Option ℤ)) (i : ℕ) : ℤ :=
  match c.get? i with
  | some (some v) => v
  | _ => -1

/-- The active channel list: an explicit non-empty `format.channels`
override, else the natural band order (lines 365-367). -/
def effectiveChannels (r : Raster) (fmt : FormatOpts) : List (Option ℤ) :=
  match fmt.channels with
  | some l =>
      if l.length = 0 then (List.range r.bands.length).map (fun (i : ℕ) => some (i : ℤ))
      else l
  | none => (List.range r.bands.length).map (fun (i : ℕ) => some (i : ℤ))

/-- The `channels.every((c) => bands[c] instanceof Uint8Array || ...)`
(lines 371-374); an in-bounds index is required for the `instanceof`
to hold. -/
def selAllU8 (r : Raster) (ch : List (Option ℤ)) : Bool :=
  ch.all fun c =>
    match c with
    | some bi =>
        if 0 ≤ bi ∧ bi < (r.bands.length : ℤ) then
          (r.bands.getD bi.toNat ⟨.u8, []⟩).kind.isU8
        else false
    | none => false

/-- The global `useRGBA8` decision (line 375):
`preferRGBA8 && !forceRGBA16F && allU8`, computed once over the whole
channel list, not per pack. -/
def useRGBA8 (r : Raster) (fmt : FormatOpts) : Bool :=
  let g := fmt.gpu.getD ⟨none, none⟩
  let preferRGBA8 := g.preferRGBA8 ≠ some false
  let forceRGBA16F := g.forceRGBA16F = some true
  preferRGBA8 ∧ ¬forceRGBA16F ∧ selAllU8 r (effectiveChannels r fmt)

/-- The `for (let p = 0; p < channels.length; p += 4)` walk: consecutive
runs of (at most) 4 channel entries. -/
def chunk4 : List (Option ℤ) → List (List (Option ℤ))
  | [] => []
  | [a] => [[a]]
  | [a, b] => [[a, b]]
  | [a, b, c] => [[a, b, c]]
  | a :: b :: c :: d :: rest => [a, b, c, d] :: chunk4 rest

/-- The `packCh = [channels[p] ?? -1, ..., channels[p+3] ?? -1]`
(lines 379-384). -/
def padTo4 (c : List (Option ℤ)) : List ℤ :=
  [chanAt c 0, chanAt c 1, chanAt c 2, chanAt c 3]

/-- The `raster.bands[bi][i]` guarded by `bi >= 0 && bi < raster.bands.length`
with `0` otherwise; an in-range band with `i` past its end reads
`undefined` (`none`, JS `NaN` after arithmetic). -/
def readSample (bands : List Band) (bi : ℤ) (i : ℕ) : Option ℚ :=
  if 0 ≤ bi ∧ bi < (bands.length : ℤ) then
    (bands.getD bi.toNat ⟨.u8, []⟩).samples.get? i
  else some 0

/-- The `bits` lookup of line 415 (`bitsPerSample[bi]`, else
`bitsPerSample[0]`) followed by `bits > 0 ? 2^bits - 1 : 65535`
(line 420).  `2^bits - 1` is exact here; the JS double loses the low bit
only for `bits > 53`, far above the `65504` threshold either way. -/
def maxForBits (bps : List ℕ) (bi : ℕ) : ℕ :=
  match (bps.get? bi).orElse (fun _ => bps.get? 0) with
  | some b => if 0 < b then 2^b - 1 else 65535
  | none => 65535

/-- Per-channel `scale` of an RGBA16F pack (lines 408-427): for an
in-range non-float band whose declared maximum exceeds 65504, the scale
becomes that maximum; otherwise it stays 1. -/
def packScale (r : Raster) (packCh : List ℤ) : List ℚ :=
  (List.range 4).map fun k =>
    let bi := packCh.getD k (-1)
    if 0 ≤ bi ∧ bi < (r.bands.length : ℤ) then
      let band := r.bands.getD bi.toNat ⟨.u8, []⟩
      if band.kind.isFloat then 1
      else if 65504 < maxForBits r.bitsPerSample bi.toNat then
        (maxForBits r.bitsPerSample bi.toNat : ℚ)
      else 1
    else 1

/-- The `if (scale[k] !== 1) v = v / scale[k]` (line 436). -/
def applyScale (s : ℚ) (v : Option ℚ) : Option ℚ :=
  if s ≠ 1 then v.map (fun q => q / s) else v

/-- Clamp to the half-float finite range (lines 439-440); a `NaN` input
(`none`) fails both comparisons and passes through. -/
def clampHalf (v : Option ℚ) : Option ℚ :=
  match v with
  | none => none
  | some q => if 65504 < q then some 65504 else if q < -65504 then some (-65504) else some q

/-- The `Uint8Array` store of the RGBA8 branch; `undefined` converts to 0. -/
def storeU8 (v : Option ℚ) : ℕ :=
  match v with
  | none => 0
  | some q => jsToUint8 q

/-- The `data[j + k] = f32ToF16Bits(v)`: the `f64 → f32` store of `v`
followed by the half-float encoder.  A `NaN` (`none`) becomes the quiet
NaN pattern `0x7E00`. -/
def storeF16 (v : Option ℚ) : ℕ :=
  match v with
  | none => 0x7E00
  | some q => f32ToF16Bits (f32BitsOfRat q)

/-- The nested store loop `for i < pixelCount, for k < 4` producing the
flat pack buffer in pixel-major order. -/
def packData4 (f : ℕ → ℕ → ℕ) : ℕ → List ℕ
  | 0 => []
  | n + 1 => packData4 f n ++ [f n 0, f n 1, f n 2, f n 3]

/-- RGBA8 pack construction (lines 386-402). -/
def mkPackU8 (r : Raster) (packCh : List ℤ) : TexturePack :=
  { format := "RGBA8"
  , data := packData4
      (fun i k => storeU8 (readSample r.bands (packCh.getD k (-1)) i))
      (r.width * r.height)
  , channels := packCh
  , scale := [1, 1, 1, 1]
  , offset := [0, 0, 0, 0] }

/-- RGBA16F pack construction (lines 405-460). -/
def mkPack16F (r : Raster) (packCh : List ℤ) : TexturePack :=
  let scale := packScale r packCh
  { format := "RGBA16F"
  , data := packData4
      (fun i k =>
        storeF16 (clampHalf (applyScale (scale.getD k 1)
          (readSample r.bands (packCh.getD k (-1)) i))))
      (r.width * r.height)
  , channels := packCh
  , scale := scale
  , offset := [0, 0, 0, 0] }

/-- The `packBandsAsData` (tiff.worker.js lines 355-464). -/
def packBandsAsData (r : Raster) (fmt : FormatOpts) : TextureSet :=
  let channels := effectiveChannels r fmt
  let channelCount :=
    (channels.filter fun c =>
      match c with
      | some v => decide (0 ≤ v)
      | none => false).length
  { width := r.width
  , height := r.height
  , mode := "data"
  , channelCount := channelCount
  , packs := (chunk4 channels).map fun c =>
      if useRGBA8 r fmt then mkPackU8 r (padTo4 c) else mkPack16F r (padTo4 c) }

/-- The natural band order `[...Array(bandCount).keys()]` starting at
`s` (proof helper; `effectiveChannels` uses `s = 0`). -/
def natFrom (s n : ℕ) : List (Option ℤ) :=
  (List.range' s n).map (fun (i : ℕ) => some (i : ℤ))

/-!
## Colour-space converter (`Converters.RGBAfromYCbCr`, Converters.js)
-/

/-- The `RGBAfromYCbCr`, interleaved form (Converters.js lines 41-54):
consumes [Y, Cb, Cr] triples, emits [R, G, B, 255] per pixel into a
`Uint8ClampedArray`.  A length not divisible by 3 makes the JS output
allocation (`input.length * 4 / 3`) throw, so only full triples are
modelled. -/
def RGBAfromYCbCrInterleaved : List ℚ → List ℕ
  | y :: cb :: cr :: rest =>
      toUint8Clamp (y + 1.402 * (cr - 0x80)) ::
      toUint8Clamp (y - 0.34414 * (cb - 0x80) - 0.71414 * (cr - 0x80)) ::
      toUint8Clamp (y + 1.772 * (cb - 0x80)) ::
      255 :: RGBAfromYCbCrInterleaved rest
  | _ => []

/-- The `RGBAfromYCbCr`, planar form (Converters.js lines 57-71): one sample
per band per pixel.  In JS, bands of unequal length read `undefined`
(`NaN`) past the shorter band's end; the model stops at the shortest
band and the theorems assume equal lengths. -/
def RGBAfromYCbCrPlanar : List ℚ → List ℚ → List ℚ → List ℕ
  | y :: ys, cb :: cbs, cr :: crs =>
      toUint8Clamp (y + 1.402 * (cr - 0x80)) ::
      toUint8Clamp (y - 0.34414 * (cb - 0x80) - 0.71414 * (cr - 0x80)) ::
      toUint8Clamp (y + 1.772 * (cb - 0x80)) ::
      255 :: RGBAfromYCbCrPlanar ys cbs crs
  | _, _, _ => []

/-- Modelled from the spec (§4.2): the G channel as the spec writes it,
`G = Y - 0.344136*(Cb-128) - 0.714136*(Cr-128)`, byte-clamped — for
comparison with the code's coefficients `0.34414` / `0.71414`. -/
def specYCbCrG (y cb cr : ℚ) : ℕ :=
  toUint8Clamp (y - 0.344136 * (cb - 128) - 0.714136 * (cr - 128))

/-!
## Raster decode error handling (`decodeRasterFromArrayBuffer`,
tiff.worker.js lines 466-516, and the `onmessage` reply protocol,
lines 579-631)
-/

/-- One image of the container, as surfaced by the external `geotiff`
collaborator (`getImage`, `readRasters` with `interleave: false`). -/
structure TiffImage where
  width : ℕ
  height : ℕ
  bands : List Band
  samplesPerPixel : ℕ
  bitsPerSample : List ℕ
  sampleFormat : Option (List ℕ)
  photometricInterpretation : Option ℕ
  colorMap : Option (List ℚ)

/-- The parsed container: `getImageCount()` is the list length. -/
structure TiffContainer where
  images : List TiffImage

/-- Normalization of one image into the canonical raster payload
(lines 482-515): `samplesPerPixel = max(spp || 0, bands.length)`. -/
def payloadOfImage (img : TiffImage) : Raster :=
  { width := img.width
  , height := img.height
  , bands := img.bands
  , samplesPerPixel := max img.samplesPerPixel img.bands.length
  , bitsPerSample := img.bitsPerSample
  , sampleFormat := img.sampleFormat
  , photometricInterpretation := img.photometricInterpretation
  , colorMap := img.colorMap }

/-- The `decodeRasterFromArrayBuffer` (lines 466-481): with a container
count other than 1 an image index is required and range-checked; with
exactly one image any supplied index is ignored and image 0 is decoded.
`imageIndex` is `hints.imageIndex` when that is a number, else `none`. -/
def decodeRaster (c : TiffContainer) (imageIndex : Option ℤ) : Except String Raster :=
  let count := c.images.length
  if count ≠ 1 then
    match imageIndex with
    | none =>
        .error ("[RawTiffPlugin] TIFF has " ++ toString count ++
          " images; provide rawTiff.hints.imageIndex to decode.")
    | some ix =>
        if ix < 0 ∨ (count : ℤ) ≤ ix then
          .error ("[RawTiffPlugin] imageIndex " ++ toString ix ++
            " out of range (0.." ++ toString (count - 1) ++ ").")
        else
          .ok (payloadOfImage (c.images.getD ix.toNat ⟨0, 0, [], 0, [], none, none, none⟩))
  else
    .ok (payloadOfImage (c.images.getD 0 ⟨0, 0, [], 0, [], none, none, none⟩))

/-- A worker reply: `{ id, ok: true, result }` or `{ id, ok: false,
error }` — never both, never a partial result. -/
structure WorkerReply (α : Type) where
  id : ℕ
  ok : Bool
  result : Option α
  error : Option String

/-- The `onmessage` handling of `op === "decodeRaster"` (lines 585-591)
with the catch-all error reply (line 629). -/
def handleDecodeRaster (id : ℕ) (c : TiffContainer) (imageIndex : Option ℤ) :
    WorkerReply Raster :=
  match decodeRaster c imageIndex with
  | .ok r => ⟨id, true, some r, none⟩
  | .error e => ⟨id, false, none, some e⟩

/-!
## Warning dedup (`consoleOnce.js` and the pool's `onmessage` warn
branch)
-/

/-- The `logOnce(key, message, mode)`: skip if the key was seen, else mark
it seen and echo.  Returns the new seen-set and whether the message was
surfaced. -/
def logOnce (seen : List String) (key : String) : List String × Bool :=
  if key ∈ seen then (seen, false) else (key :: seen, true)

/-- An out-of-band worker warning `{ kind: "warn", code, message }`. -/
structure WarnMsg where
  code : Option String
  message : String

/-- The dedup key the pool's `onmessage` warn branch passes to
`logOnce`: `msg.code || "RawTiffWorker_warn"`. -/
def poolWarnKey (m : WarnMsg) : String := m.code.getD ("RawTiffWorker_warn")

/-- Processing a stream of warn messages through the module-level
dedup state; returns the keys of the warnings actually surfaced, in
order. -/
def runWarnings : List WarnMsg → List String → List String
  | [], _ => []
  | m :: rest, seen =>
      let r := logOnce seen (poolWarnKey m)
      if r.2 then poolWarnKey m :: runWarnings rest r.1
      else runWarnings rest r.1

/-!
## Configuration merge (`deepMerge`, plugin module lines 325-337)
-/

/-- A JavaScript value as far as `deepMerge` observes it. -/
inductive JVal where
  | nul
  | bool (b : Bool)
  | num (q : ℚ)
  | str (s : String)
  | arr (xs : List JVal)
  | obj (fields : List (String × JVal))

/-- First-occurrence property lookup (`out[k]` on the model's
insertion-ordered field list). -/
def getK : List (String × JVal) → String → Option JVal
  | [], _ => none
  | (k, v) :: rest, key => if k = key then some v else getK rest key

/-- JS property assignment `out[k] = v`: update in place when the key
exists, else append (insertion order). -/
def setK : List (String × JVal) → String → JVal → List (String × JVal)
  | [], key, v => [(key, v)]
  | (k, w) :: rest, key, v =>
      if k = key then (key, v) :: rest else (k, w) :: setK rest key v

mutual

/-- One `out[k] = ...` step of the merge loop (lines 329-335): recurse
when both the incoming value and the current value are non-null,
non-array objects; otherwise the incoming value replaces wholesale. -/
def mergeVal (cur : Option JVal) (bv : JVal) : JVal :=
  match bv, cur with
  | .obj bfs, some (.obj ofs) => .obj (dmField ofs bfs)
  | _, _ => bv

/-- The `for (const k of Object.keys(b))` fold of `deepMerge`, updating
the accumulated output object key by key. -/
def dmField (acc : List (String × JVal)) : List (String × JVal) → List (String × JVal)
  | [] => acc
  | (k, bv) :: rest => dmField (setK acc k (mergeVal (getK acc k) bv)) rest

end

/-- The `deepMerge(a, b)` (lines 325-337): start from a shallow copy of `a`
(`a.slice()` for an array, `Object.assign({}, a || {})` otherwise — a
primitive or null `a` yields `{}`), and when `b` is a non-null
non-array object fold its keys over the copy.  JS string-keyed property
assignment onto an array copy (array `a` with object `b`) is not
representable here and never arises for configuration objects. -/
def deepMerge (a b : JVal) : JVal :=
  let out : JVal :=
    match a with
    | .arr xs => .arr xs
    | .obj fs => .obj fs
    | _ => .obj []
  match b, out with
  | .obj bfs, .obj ofs => .obj (dmField ofs bfs)
  | _, _ => out

mutual

/-- Recursive well-formedness of the object spine of a JS value: field
keys are duplicate-free (as they are for any real JS object). -/
def wfFields : List (String × JVal) → Bool
  | [] => true
  | (k, v) :: rest =>
      !(rest.any (fun p => p.1 = k)) && wfVal v && wfFields rest

/-- Well-formedness of a value: objects have well-formed fields. -/
def wfVal : JVal → Bool
  | .obj fs => wfFields fs
  | _ => true

end

/-!
## Worker pool dispatch (`RawTiffWorkerPool.request`, plugin module
lines 234-258)
-/

/-- Bookkeeping of one pooled worker: outstanding-request count and the
id → deferred correlation map (insertion-ordered, unique ids). -/
structure PoolEntry where
  pending : ℕ
  callbacks : List (ℕ × ℕ)
deriving DecidableEq

/-- The pool's mutable bookkeeping: per-worker entries and the
monotonically increasing `_nextId`. -/
structure WorkerPool where
  workers : List PoolEntry
  nextId : ℕ
deriving DecidableEq

/-- The `Map.set(id, d)`: overwrite an existing key in place, else append. -/
def natMapSet : List (ℕ × ℕ) → ℕ → ℕ → List (ℕ × ℕ)
  | [], key, v => [(key, v)]
  | (k, w) :: rest, key, v =>
      if k = key then (key, v) :: rest else (k, w) :: natMapSet rest key v

/-- The `Map.delete(id)`: remove the entry with that key (ids are unique in
a real `Map`). -/
def natMapDelete (l : List (ℕ × ℕ)) (key : ℕ) : List (ℕ × ℕ) :=
  l.filter (fun p => p.1 ≠ key)

/-- The `let best = workers[0]; for (w of workers) if (w.pending <
best.pending) best = w` — strict comparison keeps the earliest worker
among ties.  Returns the index of the chosen worker. -/
def pickBestAux : List PoolEntry → ℕ → ℕ → ℕ → ℕ
  | [], bi, _, _ => bi
  | w :: rest, bi, bp, ci =>
      if w.pending < bp then pickBestAux rest ci w.pending (ci + 1)
      else pickBestAux rest bi bp (ci + 1)

/-- Index of the least-loaded worker (first among ties). -/
def pickBest (ws : List PoolEntry) : ℕ :=
  pickBestAux ws 0 (ws.headD ⟨0, []⟩).pending 0

/-- Outcome of `request`: an outstanding promise, or a promise rejected
with the `postMessage` error. -/
inductive RequestOutcome where
  | pending (id : ℕ)
  | rejected (id : ℕ) (err : String)
deriving DecidableEq

/-- The `RawTiffWorkerPool.request` (lines 234-258).  `postError` carries
the error thrown by `worker.postMessage`, when it throws. -/
def poolRequest (pool : WorkerPool) (postError : Option String) :
    WorkerPool × RequestOutcome :=
  let id := pool.nextId
  let bi := pickBest pool.workers
  let best := pool.workers.getD bi ⟨0, []⟩
  let best1 : PoolEntry :=
    { pending := best.pending + 1, callbacks := natMapSet best.callbacks id 0 }
  let ws1 := pool.workers.set bi best1
  match postError with
  | some e =>
      let best2 : PoolEntry :=
        { pending := max 0 (best1.pending - 1)
        , callbacks := natMapDelete best1.callbacks id }
      (⟨ws1.set bi best2, id + 1⟩, .rejected id e)
  | none => (⟨ws1, id + 1⟩, .pending id)

/-- Correlation ids live strictly below `_nextId` — maintained by the
pool since every registered id is a previously issued `_nextId`. -/
def PoolWf (p : WorkerPool) : Prop :=
  ∀ e ∈ p.workers, ∀ q ∈ e.callbacks, q.1 < p.nextId

instance (p : WorkerPool) : Decidable (PoolWf p) := by
  unfold PoolWf; infer_instance

/-!
## Concrete fixtures used by counterexamples and witnesses
-/

/-- A 1×1 six-band 8-bit raster (spec Scenario C shape). -/
def raster6 : Raster :=
  ⟨1, 1, [⟨.u8, [10]⟩, ⟨.u8, [20]⟩, ⟨.u8, [30]⟩, ⟨.u8, [40]⟩, ⟨.u8, [50]⟩, ⟨.u8, [60]⟩],
    6, [8, 8, 8, 8, 8, 8], none, none, none⟩

/-- A 1×1 mixed-precision raster: four 8-bit bands and one 15-bit band. -/
def rasterMixed : Raster :=
  ⟨1, 1, [⟨.u8, [1]⟩, ⟨.u8, [2]⟩, ⟨.u8, [3]⟩, ⟨.u8, [4]⟩, ⟨.u16, [500]⟩],
    5, [8, 8, 8, 8, 15], none, none, none⟩

/-- A 1×1 single-band 12-bit integer raster (declared max 4095),
sample value 1000 (spec Scenario F shape). -/
def raster12 : Raster := ⟨1, 1, [⟨.u16, [1000]⟩], 1, [12], none, none, none⟩

/-- A 1×1 four-band 8-bit raster (`n mod 4 == 0`). -/
def raster4 : Raster :=
  ⟨1, 1, [⟨.u8, [1]⟩, ⟨.u8, [2]⟩, ⟨.u8, [3]⟩, ⟨.u8, [4]⟩],
    4, [8, 8, 8, 8], none, none, none⟩

/-- The default (empty) format override. -/
def fmtDefault : FormatOpts := ⟨none, none, none⟩

/-- A format override forcing half-float packing. -/
def fmtForce16F : FormatOpts := ⟨none, none, some ⟨none, some true⟩⟩

/-- The default texture pack used with `List.getD`. -/
def dfltPack : TexturePack := ⟨"", [], [], [], []⟩

theorem f32ToF16Bits_eq_fields (x : ℕ) :
    f32ToF16Bits x = f16FromFields (f32Sign x) (f32Exp x) (f32Mant x) := rfl

theorem f32Mag_nonneg (x : ℕ) : 0 ≤ f32Mag x := by
  unfold f32Mag
  split <;> positivity

theorem abs_f32ValOfBits (x : ℕ) : |f32ValOfBits x| = f32Mag x := by
  unfold f32ValOfBits
  split
  · rw [abs_neg, abs_of_nonneg (f32Mag_nonneg x)]
  · exact abs_of_nonneg (f32Mag_nonneg x)

theorem f32Exp_lt (x : ℕ) : f32Exp x < 256 := Nat.mod_lt _ (by norm_num)

theorem f32Mant_lt (x : ℕ) : f32Mant x < 2^23 := Nat.mod_lt _ (by norm_num)

theorem f16FromFields_inf_direct (sign exp mant : ℕ) (h1 : exp ≠ 255) (h2 : exp ≠ 0)
    (h3 : (0x1F:ℤ) ≤ (exp:ℤ) - 127 + 15) :
    f16FromFields sign exp mant = sign * 2^15 + 0x7C00 := by
  unfold f16FromFields
  rw [if_neg h1, if_neg h2, if_pos h3]

theorem f16FromFields_inf_carry (sign exp mant : ℕ) (h1 : exp ≠ 255) (h2 : exp ≠ 0)
    (h3 : (exp:ℤ) - 127 + 15 < 0x1F) (h4 : 0 < (exp:ℤ) - 127 + 15)
    (h5 : 2^23 ≤ mant + 0x1000) (h6 : (0x1F:ℤ) ≤ (exp:ℤ) - 127 + 15 + 1) :
    f16FromFields sign exp mant = sign * 2^15 + 0x7C00 := by
  unfold f16FromFields
  rw [if_neg h1, if_neg h2, if_neg (not_le.mpr h3), if_neg (not_le.mpr h4), if_pos h5,
    if_pos h6]

theorem f16FromFields_flush_subnormal (sign mant : ℕ) :
    f16FromFields sign 0 mant = sign * 2^15 := by
  unfold f16FromFields
  rw [if_neg (by norm_num : (0:ℕ) ≠ 255), if_pos rfl]

theorem f16FromFields_flush_underflow (sign exp mant : ℕ) (h1 : exp ≠ 255) (h2 : exp ≠ 0)
    (h3 : (exp:ℤ) - 127 + 15 < 0x1F) (h4 : (exp:ℤ) - 127 + 15 ≤ 0) :
    f16FromFields sign exp mant = sign * 2^15 := by
  unfold f16FromFields
  rw [if_neg h1, if_neg h2, if_neg (not_le.mpr h3), if_pos h4]

/-- C3 is FALSE as stated: the 32-bit pattern `0x477FE100` denotes the
finite value `65505`, whose magnitude exceeds `65504`, yet the encoder
rounds it to the largest finite half-float `0x7BFF`, not to signed
Infinity `0x7C00`. -/
theorem claimC3_counterexample :
    f32IsFinite 0x477FE100 ∧
    (65504 : ℚ) < |f32ValOfBits 0x477FE100| ∧
    f32ToF16Bits 0x477FE100 ≠ f32Sign 0x477FE100 * 2^15 + 0x7C00 := by
  refine ⟨by decide, ?_, by decide⟩
  rw [abs_f32ValOfBits]
  norm_num [f32Mag, f32Exp, f32Mant]

/-- C3 (amended): for every finite 32-bit float input, the half-float
encoder returns the signed-Infinity pattern `sign<<15 | 0x7C00` whenever
the input's magnitude is at least `65520` (magnitudes in `(65504, 65520)`
round to the largest finite binary16 value instead), and returns the
signed-zero pattern `sign<<15` whenever the input's magnitude is below
the smallest binary16 normal `2^-14`. -/
theorem claimC3_amended (x : ℕ) (hfin : f32IsFinite x) :
    (65520 ≤ |f32ValOfBits x| → f32ToF16Bits x = f32Sign x * 2^15 + 0x7C00) ∧
    (|f32ValOfBits x| < 1/2^14 → f32ToF16Bits x = f32Sign x * 2^15) := by
  have hm : f32Mant x < 2^23 := f32Mant_lt x
  have he : f32Exp x < 256 := f32Exp_lt x
  have hne : f32Exp x ≠ 255 := hfin
  rw [abs_f32ValOfBits]
  constructor
  · intro hge
    have he0 : f32Exp x ≠ 0 := by
      intro h0
      rw [f32Mag, if_pos h0] at hge
      have hmq : (f32Mant x : ℚ) < 2^23 := by exact_mod_cast hm
      have : (f32Mant x : ℚ) / 2^149 < 65520 := by
        rw [div_lt_iff₀ (by positivity)]
        nlinarith
      linarith
    rw [f32Mag, if_neg he0] at hge
    rw [le_div_iff₀ (by positivity)] at hge
    have hnat : 65520 * 2^150 ≤ 2^(f32Exp x) * (2^23 + f32Mant x) := by
      exact_mod_cast hge
    have he142 : 142 ≤ f32Exp x := by
      by_contra hcon
      push_neg at hcon
      have hb : (2:ℕ)^141 * 2^24 < 2^(f32Exp x) * 2^24 := by
        calc (2:ℕ)^141 * 2^24 < 65520 * 2^150 := by norm_num
          _ ≤ 2^(f32Exp x) * (2^23 + f32Mant x) := hnat
          _ ≤ 2^(f32Exp x) * 2^24 := Nat.mul_le_mul_left _ (by omega)
      have hp : (2:ℕ)^141 < 2^(f32Exp x) := Nat.lt_of_mul_lt_mul_right hb
      have := (Nat.pow_lt_pow_iff_right (by norm_num : 1 < 2)).mp hp
      omega
    rcases Nat.lt_or_ge (f32Exp x) 143 with h143 | h143
    · -- exponent field exactly 142: the rounding carry must overflow
      have he' : f32Exp x = 142 := by omega
      have hkey : (2:ℕ)^142 * 16773120 ≤ 2^142 * (2^23 + f32Mant x) := by
        have h65 : (65520 * 2^150 : ℕ) = 2^142 * 16773120 := by norm_num
        rw [he', h65] at hnat
        exact hnat
      have hm' : 8384512 ≤ f32Mant x := by
        have := Nat.le_of_mul_le_mul_left hkey (by positivity)
        omega
      rw [f32ToF16Bits_eq_fields, he']
      exact f16FromFields_inf_carry _ _ _ (by norm_num) (by norm_num)
        (by norm_num) (by norm_num) (by omega) (by norm_num)
    · -- exponent field at least 143: direct overflow to Infinity
      rw [f32ToF16Bits_eq_fields]
      exact f16FromFields_inf_direct _ _ _ hne he0 (by omega)
  · intro hlt
    by_cases he0 : f32Exp x = 0
    · rw [f32ToF16Bits_eq_fields, he0]
      exact f16FromFields_flush_subnormal _ _
    · rw [f32Mag, if_neg he0] at hlt
      have he112 : f32Exp x ≤ 112 := by
        by_contra hcon
        push_neg at hcon
        have hnat : (2:ℕ)^150 ≤ 2^14 * (2^(f32Exp x) * (2^23 + f32Mant x)) := by
          calc (2:ℕ)^150 = 2^14 * (2^113 * 2^23) := by norm_num
            _ ≤ 2^14 * (2^(f32Exp x) * (2^23 + f32Mant x)) := by
                refine Nat.mul_le_mul_left _ (Nat.mul_le_mul ?_ ?_)
                · exact Nat.pow_le_pow_right (by norm_num) (by omega)
                · omega
        have hq : (1:ℚ)/2^14 ≤ (2^(f32Exp x) * (2^23 + (f32Mant x:ℚ))) / 2^150 := by
          rw [div_le_div_iff₀ (by positivity) (by positivity)]
          have hc : ((2:ℕ)^150 : ℚ) ≤ ((2^14 * (2^(f32Exp x) * (2^23 + f32Mant x)) : ℕ) : ℚ) := by
            exact_mod_cast hnat
          push_cast at hc
          linarith
        linarith
      rw [f32ToF16Bits_eq_fields]
      exact f16FromFields_flush_underflow _ _ _ (by omega) he0
        (by omega) (by omega)

theorem getD_default_irrel {α : Type} (l : List α) (k : ℕ) (d1 d2 : α)
    (h : k < l.length) : l.getD k d1 = l.getD k d2 := by
  induction l generalizing k with
  | nil => simp at h
  | cons a t ih =>
      cases k with
      | zero => rfl
      | succ k' => simpa using ih k' (by simpa using h)

theorem chunk4_length : ∀ l : List (Option ℤ), (chunk4 l).length = (l.length + 3) / 4
  | [] => rfl
  | [_] => by simp [chunk4]
  | [_, _] => by simp [chunk4]
  | [_, _, _] => by simp [chunk4]
  | _ :: _ :: _ :: _ :: rest => by
      simp only [chunk4, List.length_cons, chunk4_length rest]
      omega

theorem natFrom_length (s n : ℕ) : (natFrom s n).length = n := by
  unfold natFrom
  rw [List.length_map, List.length_range']

theorem natFrom_succ (s n : ℕ) :
    natFrom s (n + 1) = some (s : ℤ) :: natFrom (s + 1) n := by
  unfold natFrom
  rw [List.range'_succ]
  rfl

theorem effectiveChannels_none (r : Raster) (fmt : FormatOpts)
    (h : fmt.channels = none) :
    effectiveChannels r fmt = natFrom 0 r.bands.length := by
  unfold effectiveChannels natFrom
  rw [h, List.range_eq_range']

/-- Slot `k` of chunk `j` of the natural channel order starting at `s`:
band index `s + 4j + k` when in range, sentinel `-1` otherwise. -/
theorem chunkSlot : ∀ (n s j k : ℕ), k < 4 → j < (chunk4 (natFrom s n)).length →
    (padTo4 ((chunk4 (natFrom s n)).getD j [])).getD k 0 =
      if 4 * j + k < n then ((s + 4 * j + k : ℕ) : ℤ) else -1
  | 0, s, j, k, hk, hj => by
      simp [natFrom, chunk4] at hj
  | 1, s, j, k, hk, hj => by
      have hl : natFrom s 1 = [some (s : ℤ)] := by
        rw [natFrom_succ]; rfl
      rw [hl] at hj ⊢
      have hj0 : j = 0 := by simpa [chunk4] using hj
      subst hj0
      interval_cases k <;> simp [chunk4, padTo4, chanAt]
  | 2, s, j, k, hk, hj => by
      have hl : natFrom s 2 = [some (s : ℤ), some ((s + 1 : ℕ) : ℤ)] := by
        rw [natFrom_succ, natFrom_succ]; rfl
      rw [hl] at hj ⊢
      have hj0 : j = 0 := by simpa [chunk4] using hj
      subst hj0
      interval_cases k <;> simp [chunk4, padTo4, chanAt]
  | 3, s, j, k, hk, hj => by
      have hl : natFrom s 3 =
          [some (s : ℤ), some ((s + 1 : ℕ) : ℤ), some ((s + 2 : ℕ) : ℤ)] := by
        rw [natFrom_succ, natFrom_succ, natFrom_succ]; rfl
      rw [hl] at hj ⊢
      have hj0 : j = 0 := by simpa [chunk4] using hj
      subst hj0
      interval_cases k <;> simp [chunk4, padTo4, chanAt]
  | (m + 4), s, j, k, hk, hj => by
      have hl : natFrom s (m + 4) =
          some (s : ℤ) :: some ((s + 1 : ℕ) : ℤ) :: some ((s + 2 : ℕ) : ℤ) ::
            some ((s + 3 : ℕ) : ℤ) :: natFrom (s + 4) m := by
        rw [natFrom_succ, natFrom_succ, natFrom_succ, natFrom_succ]
      rw [hl] at hj ⊢
      cases j with
      | zero =>
          have hc : (chunk4 (some (s : ℤ) :: some ((s + 1 : ℕ) : ℤ) ::
              some ((s + 2 : ℕ) : ℤ) :: some ((s + 3 : ℕ) : ℤ) ::
              natFrom (s + 4) m)).getD 0 [] =
              [some (s : ℤ), some ((s + 1 : ℕ) : ℤ), some ((s + 2 : ℕ) : ℤ),
                some ((s + 3 : ℕ) : ℤ)] := rfl
          rw [hc, if_pos (by omega)]
          interval_cases k <;> (norm_num [padTo4, chanAt])
      | succ j' =>
          have hj' : j' < (chunk4 (natFrom (s + 4) m)).length := by
            simpa [chunk4] using hj
          have IH := chunkSlot m (s + 4) j' k hk hj'
          simp only [chunk4, List.getD_cons_succ]
          rw [IH]
          by_cases hlt : 4 * j' + k < m
          · rw [if_pos hlt, if_pos (by omega)]
            congr 1
            omega
          · rw [if_neg hlt, if_neg (by omega)]

theorem packData4_length (f : ℕ → ℕ → ℕ) : ∀ n, (packData4 f n).length = 4 * n
  | 0 => rfl
  | n + 1 => by
      simp [packData4, packData4_length f n]
      omega

theorem packData4_getD (f : ℕ → ℕ → ℕ) :
    ∀ n i k, i < n → k < 4 → (packData4 f n).getD (4 * i + k) 1 = f i k
  | 0, i, k, hi, hk => by omega
  | n + 1, i, k, hi, hk => by
      unfold packData4
      rcases Nat.lt_or_ge i n with hin | hin
      · rw [List.getD_append _ _ _ _ (by rw [packData4_length]; omega)]
        exact packData4_getD f n i k hin hk
      · have hieq : i = n := by omega
        subst hieq
        rw [List.getD_append_right _ _ _ _ (by rw [packData4_length]; omega)]
        rw [packData4_length]
        have : 4 * i + k - 4 * i = k := by omega
        rw [this]
        interval_cases k <;> rfl

theorem infer_eq_autoClassifySpec (r : Raster) :
    inferFromTIFFTags r = autoClassifySpec r := by
  rcases r with ⟨w, h, bands, spp, bits, sf, pi, cm⟩
  unfold inferFromTIFFTags autoClassifySpec
  dsimp only
  rcases pi with _ | n
  · simp
  · match n with
    | 0 => simp
    | 1 => simp
    | 2 => simp
    | 3 => simp
    | 4 => simp
    | 5 => simp
    | 6 => simp
    | 7 => simp
    | 8 => simp
    | m + 9 =>
      rw [if_neg (by simp only [Option.some.injEq]; omega),
        if_neg (by rintro ⟨hc, -⟩; simp only [Option.some.injEq] at hc; omega)]
      split <;> first | rfl | (simp_all only [Option.some.injEq]; omega)

/-- C6 (confirmed): the mode classifier is total and matches the spec's
description — a forced interpretation (`"image"` / `"data"`, indeed any
non-`"auto"` string) is used verbatim; under `"auto"` the tags RGB,
YCbCr, CMYK, CIE-Lab, Palette classify as image, single-band
black-is-zero / white-is-zero classifies as image, and every other
input (absent tag, multi-band unrecognized tag) classifies as data. -/
theorem claimC6 (r : Raster) (fmt : FormatOpts) :
    resolveMode r fmt = classifySpecModel r fmt := by
  unfold resolveMode classifySpecModel
  rcases hi : fmt.interpretation with _ | s
  · simpa using infer_eq_autoClassifySpec r
  · by_cases h1 : s = "image"
    · subst h1; simp
    · by_cases h2 : s = "data"
      · subst h2; simp
      · by_cases h3 : s = "auto"
        · subst h3
          simpa using infer_eq_autoClassifySpec r
        · simp only [Option.getD_some, if_neg h3]

/-- Witness for C3 (amended): `0x477FF000` denotes `65520` and saturates
to `+Infinity`; `0x00000001` denotes the smallest positive subnormal and
flushes to `+0`. -/
theorem claimC3_witness :
    f32ToF16Bits 0x477FF000 = 0 * 2^15 + 0x7C00 ∧ f32ToF16Bits 0x00000001 = 0 * 2^15 := by
  constructor
  · exact (claimC3_amended 0x477FF000 (by decide)).1
      (by rw [abs_f32ValOfBits]; norm_num [f32Mag, f32Exp, f32Mant])
  · exact (claimC3_amended 0x00000001 (by decide)).2
      (by rw [abs_f32ValOfBits]; norm_num [f32Mag, f32Exp, f32Mant])

theorem getD_map_of_lt {α β : Type} (f : α → β) (l : List α) (j : ℕ) (d : β) (d' : α)
    (h : j < l.length) : (l.map f).getD j d = f (l.getD j d') := by
  induction l generalizing j with
  | nil => simp at h
  | cons a t ih =>
      cases j with
      | zero => rfl
      | succ j' => simpa using ih j' (by simpa using h)

theorem range4_map_getD {β : Type} (f : ℕ → β) (k : ℕ) (d : β) (hk : k < 4) :
    ((List.range 4).map f).getD k d = f k := by
  interval_cases k <;> rfl

theorem padTo4_length (c : List (Option ℤ)) : (padTo4 c).length = 4 := rfl

theorem readSample_neg (bands : List Band) (i : ℕ) :
    readSample bands (-1) i = some 0 := by
  unfold readSample
  rw [if_neg]
  rintro ⟨hc, -⟩
  norm_num at hc

theorem packBandsAsData_packs_length (r : Raster) (fmt : FormatOpts) :
    (packBandsAsData r fmt).packs.length = (chunk4 (effectiveChannels r fmt)).length := by
  unfold packBandsAsData
  exact List.length_map _ _

theorem mkPackU8_channels (r : Raster) (pc : List ℤ) : (mkPackU8 r pc).channels = pc := rfl

theorem mkPack16F_channels (r : Raster) (pc : List ℤ) : (mkPack16F r pc).channels = pc := rfl

theorem mkPackU8_format (r : Raster) (pc : List ℤ) : (mkPackU8 r pc).format = "RGBA8" := rfl

theorem mkPack16F_format (r : Raster) (pc : List ℤ) : (mkPack16F r pc).format = "RGBA16F" := rfl

theorem mkPackU8_scale (r : Raster) (pc : List ℤ) : (mkPackU8 r pc).scale = [1, 1, 1, 1] := rfl

theorem mkPack16F_scale (r : Raster) (pc : List ℤ) :
    (mkPack16F r pc).scale = packScale r pc := rfl

theorem mkPackU8_data (r : Raster) (pc : List ℤ) :
    (mkPackU8 r pc).data =
      packData4 (fun i k => storeU8 (readSample r.bands (pc.getD k (-1)) i))
        (r.width * r.height) := rfl

theorem mkPack16F_data (r : Raster) (pc : List ℤ) :
    (mkPack16F r pc).data =
      packData4
        (fun i k => storeF16 (clampHalf (applyScale ((packScale r pc).getD k 1)
          (readSample r.bands (pc.getD k (-1)) i))))
        (r.width * r.height) := rfl

theorem packBandsAsData_packs_getD (r : Raster) (fmt : FormatOpts) (j : ℕ)
    (hj : j < (chunk4 (effectiveChannels r fmt)).length) :
    (packBandsAsData r fmt).packs.getD j dfltPack =
      if useRGBA8 r fmt then
        mkPackU8 r (padTo4 ((chunk4 (effectiveChannels r fmt)).getD j []))
      else mkPack16F r (padTo4 ((chunk4 (effectiveChannels r fmt)).getD j [])) := by
  unfold packBandsAsData
  exact getD_map_of_lt _ _ _ _ [] hj

/-- C4 (confirmed): in data mode with the natural band order,
`packs.length = ⌈n/4⌉`; every slot of every pack but the last holds a
non-negative band index; and in the last pack the slots at positions at
or beyond `n mod 4` (all 4 positions being in use when `n mod 4 == 0`)
hold the sentinel `-1` with zero-filled backing data. -/
theorem claimC4 (r : Raster) (fmt : FormatOpts) (hch : fmt.channels = none) :
    (packBandsAsData r fmt).packs.length = (r.bands.length + 3) / 4 ∧
    (∀ j k, j + 1 < (packBandsAsData r fmt).packs.length → k < 4 →
      0 ≤ ((packBandsAsData r fmt).packs.getD j dfltPack).channels.getD k 0) ∧
    (∀ k, k < 4 →
      (if r.bands.length % 4 = 0 then 4 else r.bands.length % 4) ≤ k →
      ((packBandsAsData r fmt).packs.getD ((packBandsAsData r fmt).packs.length - 1)
          dfltPack).channels.getD k 0 = -1 ∧
      ∀ i, i < r.width * r.height →
        ((packBandsAsData r fmt).packs.getD ((packBandsAsData r fmt).packs.length - 1)
            dfltPack).data.getD (4 * i + k) 1 = 0) := by
  have hech : effectiveChannels r fmt = natFrom 0 r.bands.length :=
    effectiveChannels_none r fmt hch
  have hclen : (chunk4 (effectiveChannels r fmt)).length = (r.bands.length + 3) / 4 := by
    rw [hech, chunk4_length, natFrom_length]
  have hplen : (packBandsAsData r fmt).packs.length = (r.bands.length + 3) / 4 := by
    rw [packBandsAsData_packs_length, hclen]
  refine ⟨hplen, ?_, ?_⟩
  · intro j k hj1 hk
    have hjc : j < (chunk4 (effectiveChannels r fmt)).length := by
      rw [hclen]; rw [hplen] at hj1; omega
    have hn : 4 * j + k < r.bands.length := by
      rw [hplen] at hj1; omega
    have hslot :
        ((packBandsAsData r fmt).packs.getD j dfltPack).channels.getD k 0 =
          ((0 + 4 * j + k : ℕ) : ℤ) := by
      rw [packBandsAsData_packs_getD r fmt j hjc]
      have hjc2 := hjc
      rw [hech] at hjc2
      rcases Bool.eq_false_or_eq_true (useRGBA8 r fmt) with hu | hu
      · rw [if_pos hu, mkPackU8_channels, hech,
          chunkSlot r.bands.length 0 j k hk hjc2, if_pos hn]
      · rw [if_neg (by simp [hu]), mkPack16F_channels, hech,
          chunkSlot r.bands.length 0 j k hk hjc2, if_pos hn]
    rw [hslot]
    positivity
  · intro k hk hcut
    have hmod : r.bands.length % 4 ≠ 0 := by
      by_contra hc
      rw [if_pos hc] at hcut
      omega
    have hn1 : 1 ≤ r.bands.length := by omega
    have hjc : (packBandsAsData r fmt).packs.length - 1 <
        (chunk4 (effectiveChannels r fmt)).length := by
      rw [hclen, hplen]; omega
    have hout : ¬ (4 * ((packBandsAsData r fmt).packs.length - 1) + k < r.bands.length) := by
      rw [hplen]
      rw [if_neg hmod] at hcut
      omega
    have hjc2 := hjc
    rw [hech] at hjc2
    have hsent :
        ((packBandsAsData r fmt).packs.getD ((packBandsAsData r fmt).packs.length - 1)
          dfltPack).channels.getD k 0 = -1 := by
      rw [packBandsAsData_packs_getD r fmt _ hjc]
      rcases Bool.eq_false_or_eq_true (useRGBA8 r fmt) with hu | hu
      · rw [if_pos hu, mkPackU8_channels, hech,
          chunkSlot r.bands.length 0 _ k hk hjc2, if_neg hout]
      · rw [if_neg (by simp [hu]), mkPack16F_channels, hech,
          chunkSlot r.bands.length 0 _ k hk hjc2, if_neg hout]
    refine ⟨hsent, ?_⟩
    intro i hi
    have hsent' :
        (padTo4 ((chunk4 (effectiveChannels r fmt)).getD
          ((packBandsAsData r fmt).packs.length - 1) [])).getD k (-1) = -1 := by
      rw [getD_default_irrel _ _ _ 0 (by rw [padTo4_length]; omega), hech,
        chunkSlot r.bands.length 0 _ k hk hjc2, if_neg hout]
    rw [packBandsAsData_packs_getD r fmt _ hjc]
    rcases Bool.eq_false_or_eq_true (useRGBA8 r fmt) with hu | hu
    · rw [if_pos hu, mkPackU8_data, packData4_getD _ _ i k hi hk, hsent',
        readSample_neg]
      decide
    · rw [if_neg (by simp [hu]), mkPack16F_data,
        packData4_getD _ _ i k hi hk, hsent']
      rw [show (packScale r (padTo4 ((chunk4 (effectiveChannels r fmt)).getD
            ((packBandsAsData r fmt).packs.length - 1) []))).getD k 1 =
          (1 : ℚ) from ?_]
      · rw [readSample_neg]
        decide
      · unfold packScale
        rw [range4_map_getD _ k 1 hk, hsent']
        rw [if_neg]
        rintro ⟨hc, -⟩
        norm_num at hc

/-- Witness for C4: the six-band raster yields `⌈6/4⌉ = 2` packs, the
first pack's slots are non-negative, and the second pack's slots 2 and 3
are `-1` with zero data. -/
theorem claimC4_witness :
    fmtDefault.channels = none ∧
    (packBandsAsData raster6 fmtDefault).packs.length = 2 ∧
    0 ≤ ((packBandsAsData raster6 fmtDefault).packs.getD 0 dfltPack).channels.getD 1 0 ∧
    ((packBandsAsData raster6 fmtDefault).packs.getD 1 dfltPack).channels.getD 2 0 = -1 ∧
    ((packBandsAsData raster6 fmtDefault).packs.getD 1 dfltPack).data.getD 2 1 = 0 := by
  obtain ⟨h1, h2, h3⟩ := claimC4 raster6 fmtDefault rfl
  have hlast : (packBandsAsData raster6 fmtDefault).packs.length - 1 = 1 := by
    rw [h1]; rfl
  obtain ⟨ha, hb⟩ := h3 2 (by norm_num) (by norm_num [raster6])
  rw [hlast] at ha hb
  exact ⟨rfl, by rw [h1]; norm_num [raster6], h2 0 1 (by rw [h1]; norm_num [raster6]) (by norm_num),
    ha, by simpa [raster6] using hb 0 (by norm_num [raster6])⟩

/-- C1 is FALSE as stated: for a mixed-precision raster (four 8-bit
bands and one 16-bit-typed band), the claim predicts a TextureSet
containing both a Byte4 pack and a HalfFloat4 pack; the code decides
the storage format once, globally, so both packs come out HalfFloat4. -/
theorem claimC1_counterexample :
    (packBandsAsData rasterMixed fmtDefault).packs.map (·.format) =
      ["RGBA16F", "RGBA16F"] ∧
    ¬ ((∃ p ∈ (packBandsAsData rasterMixed fmtDefault).packs, p.format = "RGBA8") ∧
       (∃ p ∈ (packBandsAsData rasterMixed fmtDefault).packs, p.format = "RGBA16F")) := by
  have hmap : (packBandsAsData rasterMixed fmtDefault).packs.map (·.format) =
      ["RGBA16F", "RGBA16F"] := by decide
  refine ⟨hmap, ?_⟩
  rintro ⟨⟨p, hp, hfmt⟩, -⟩
  have hmem : p.format ∈ (packBandsAsData rasterMixed fmtDefault).packs.map (·.format) :=
    List.mem_map_of_mem _ hp
  rw [hmap, hfmt] at hmem
  simp at hmem

/-- C1 (amended): the Byte4 / HalfFloat4 decision is made once, globally
(tiff.worker.js line 375): every pack of the produced TextureSet has
storage format Byte4 exactly when 8-bit storage is preferred, half-float
is not forced, and every selected channel across the whole channel list
is 8-bit — otherwise every pack is HalfFloat4.  A mixed-precision input
therefore yields an all-HalfFloat4 set, never a mix. -/
theorem claimC1_amended (r : Raster) (fmt : FormatOpts) (j : ℕ)
    (hj : j < (packBandsAsData r fmt).packs.length) :
    ((packBandsAsData r fmt).packs.getD j dfltPack).format =
      (if useRGBA8 r fmt then ("RGBA8") else ("RGBA16F")) := by
  rw [packBandsAsData_packs_length] at hj
  rw [packBandsAsData_packs_getD r fmt j hj]
  rcases Bool.eq_false_or_eq_true (useRGBA8 r fmt) with hu | hu
  · rw [if_pos hu, if_pos hu, mkPackU8_format]
  · rw [if_neg (by simp [hu]), if_neg (by simp [hu]), mkPack16F_format]

/-- Witness for C1 (amended) at the mixed-precision fixture: its first
pack (whose channels are all 8-bit) is still HalfFloat4, because the
global decision sees the 16-bit band. -/
theorem claimC1_witness :
    ((packBandsAsData rasterMixed fmtDefault).packs.getD 0 dfltPack).format =
      (if useRGBA8 rasterMixed fmtDefault then ("RGBA8") else ("RGBA16F")) ∧
    useRGBA8 rasterMixed fmtDefault = false :=
  ⟨claimC1_amended rasterMixed fmtDefault 0
      (by rw [packBandsAsData_packs_length]; decide),
    by decide⟩

/-- C2 is FALSE as stated: for the 12-bit band (declared max 4095, value
1000) packed with forced half-float, the pack's scale entry is 1, not
4095, and the stored sample decodes to 1000, which does not lie in
[0,1]. -/
theorem claimC2_counterexample :
    ((packBandsAsData raster12 fmtForce16F).packs.getD 0 dfltPack).scale.getD 0 0 = 1 ∧
    (1 : ℚ) ≠ 4095 ∧
    f16BitsToRat (((packBandsAsData raster12 fmtForce16F).packs.getD 0
      dfltPack).data.getD 0 1) = 1000 ∧
    ¬ f16BitsToRat (((packBandsAsData raster12 fmtForce16F).packs.getD 0
      dfltPack).data.getD 0 1) ≤ 1 := by
  have hdata : ((packBandsAsData raster12 fmtForce16F).packs.getD 0
      dfltPack).data.getD 0 1 = 0x63D0 := by decide
  have hscale : ((packBandsAsData raster12 fmtForce16F).packs.getD 0
      dfltPack).scale.getD 0 0 = 1 := by decide
  refine ⟨hscale, by norm_num, ?_, ?_⟩
  · rw [hdata]; norm_num [f16BitsToRat]
  · rw [hdata]; norm_num [f16BitsToRat]

/-- C2 (amended): an integer band with declared maximum 4095 (12 bits)
packed in data mode with half-float forced keeps `scale = 1` — the
packer normalizes a channel only when its declared maximum exceeds the
half-float finite bound 65504 — and the single pack is HalfFloat4, its
stored samples being the half-float encodings of the raw sample values
(clamped to ±65504), not values normalized into [0,1]. -/
theorem claimC2_amended (w h : ℕ) (samples : List ℚ) :
    (packBandsAsData ⟨w, h, [⟨.u16, samples⟩], 1, [12], none, none, none⟩
        fmtForce16F).packs.map (·.scale) = [[1, 1, 1, 1]] ∧
    (packBandsAsData ⟨w, h, [⟨.u16, samples⟩], 1, [12], none, none, none⟩
        fmtForce16F).packs.map (·.format) = ["RGBA16F"] := by
  constructor <;> rfl

/-- Skipping four output components (one emitted RGBA pixel). -/
theorem getD_cons4 (x1 x2 x3 x4 : ℕ) (l : List ℕ) (n : ℕ) :
    (x1 :: x2 :: x3 :: x4 :: l).getD (n + 4) 0 = l.getD n 0 := rfl

/-- C5 is FALSE as stated: at the pixel `(Y, Cb, Cr) = (128, 12, 186)`
the code's G coefficients `0.34414` / `0.71414` give byte 127, while the
spec's `0.344136` / `0.714136` give byte 126. -/
theorem claimC5_counterexample :
    (RGBAfromYCbCrPlanar [128] [12] [186]).getD 1 0 = 127 ∧
    specYCbCrG 128 12 186 = 126 ∧ (127 : ℕ) ≠ 126 := by
  refine ⟨?_, ?_, by norm_num⟩
  · norm_num [RGBAfromYCbCrPlanar, toUint8Clamp]
    simp only [show (126 : ℤ).toNat = 126 from rfl]
    norm_num
  · norm_num [specYCbCrG, toUint8Clamp]
    simp only [show (126 : ℤ).toNat = 126 from rfl]
    norm_num

/-- C5 (amended): the YCbCr converter computes, for every pixel,
`R = Y + 1.402*(Cr-128)`,
`G = Y - 0.34414*(Cb-128) - 0.71414*(Cr-128)` (the code's coefficients,
which differ from the spec's 0.344136/0.714136 in the 5th decimal),
`B = Y + 1.772*(Cb-128)`, each byte-clamped to [0,255], with alpha 255,
in both planar and interleaved input forms. -/
theorem claimC5_amended :
    (∀ (i : ℕ) (y cb cr : List ℚ), i < y.length → cb.length = y.length →
      cr.length = y.length →
      (RGBAfromYCbCrPlanar y cb cr).getD (4*i) 0 =
        toUint8Clamp (y.getD i 0 + 1.402 * (cr.getD i 0 - 128)) ∧
      (RGBAfromYCbCrPlanar y cb cr).getD (4*i+1) 0 =
        toUint8Clamp (y.getD i 0 - 0.34414 * (cb.getD i 0 - 128)
          - 0.71414 * (cr.getD i 0 - 128)) ∧
      (RGBAfromYCbCrPlanar y cb cr).getD (4*i+2) 0 =
        toUint8Clamp (y.getD i 0 + 1.772 * (cb.getD i 0 - 128)) ∧
      (RGBAfromYCbCrPlanar y cb cr).getD (4*i+3) 0 = 255) ∧
    (∀ (i : ℕ) (l : List ℚ), 3*i + 2 < l.length →
      (RGBAfromYCbCrInterleaved l).getD (4*i) 0 =
        toUint8Clamp (l.getD (3*i) 0 + 1.402 * (l.getD (3*i+2) 0 - 128)) ∧
      (RGBAfromYCbCrInterleaved l).getD (4*i+1) 0 =
        toUint8Clamp (l.getD (3*i) 0 - 0.34414 * (l.getD (3*i+1) 0 - 128)
          - 0.71414 * (l.getD (3*i+2) 0 - 128)) ∧
      (RGBAfromYCbCrInterleaved l).getD (4*i+2) 0 =
        toUint8Clamp (l.getD (3*i) 0 + 1.772 * (l.getD (3*i+1) 0 - 128)) ∧
      (RGBAfromYCbCrInterleaved l).getD (4*i+3) 0 = 255) := by
  constructor
  · intro i
    induction i with
    | zero =>
        intro y cb cr hy hcb hcr
        rcases y with _ | ⟨a, ys⟩
        · simp at hy
        rcases cb with _ | ⟨b, cbs⟩
        · simp at hcb
        rcases cr with _ | ⟨c, crs⟩
        · simp at hcr
        exact ⟨rfl, rfl, rfl, rfl⟩
    | succ i ih =>
        intro y cb cr hy hcb hcr
        rcases y with _ | ⟨a, ys⟩
        · simp at hy
        rcases cb with _ | ⟨b, cbs⟩
        · simp at hcb
        rcases cr with _ | ⟨c, crs⟩
        · simp at hcr
        obtain ⟨ih1, ih2, ih3, ih4⟩ :=
          ih ys cbs crs (by simpa using hy) (by simpa using hcb) (by simpa using hcr)
        refine ⟨?_, ?_, ?_, ?_⟩
        · rw [show 4 * (i+1) = 4*i + 4 from by ring]
          show (RGBAfromYCbCrPlanar ys cbs crs).getD (4*i) 0 = _
          exact ih1
        · rw [show 4 * (i+1) + 1 = (4*i+1) + 4 from by ring]
          show (RGBAfromYCbCrPlanar ys cbs crs).getD (4*i+1) 0 = _
          exact ih2
        · rw [show 4 * (i+1) + 2 = (4*i+2) + 4 from by ring]
          show (RGBAfromYCbCrPlanar ys cbs crs).getD (4*i+2) 0 = _
          exact ih3
        · rw [show 4 * (i+1) + 3 = (4*i+3) + 4 from by ring]
          show (RGBAfromYCbCrPlanar ys cbs crs).getD (4*i+3) 0 = _
          exact ih4
  · intro i
    induction i with
    | zero =>
        intro l hl
        match l, hl with
        | a :: b :: c :: rest, _ => exact ⟨rfl, rfl, rfl, rfl⟩
    | succ i ih =>
        intro l hl
        match l, hl with
        | a :: b :: c :: rest, hl =>
          obtain ⟨ih1, ih2, ih3, ih4⟩ := ih rest (by
            simp only [List.length_cons] at hl
            omega)
          refine ⟨?_, ?_, ?_, ?_⟩
          · rw [show 4 * (i+1) = 4*i + 4 from by ring,
              show 3 * (i+1) = 3*i + 3 from by ring,
              show 3*i + 3 + 2 = (3*i+2) + 3 from by ring]
            show (RGBAfromYCbCrInterleaved rest).getD (4*i) 0 = _
            exact ih1
          · rw [show 4 * (i+1) + 1 = (4*i+1) + 4 from by ring,
              show 3 * (i+1) = 3*i + 3 from by ring,
              show 3*i + 3 + 1 = (3*i+1) + 3 from by ring,
              show 3*i + 3 + 2 = (3*i+2) + 3 from by ring]
            show (RGBAfromYCbCrInterleaved rest).getD (4*i+1) 0 = _
            exact ih2
          · rw [show 4 * (i+1) + 2 = (4*i+2) + 4 from by ring,
              show 3 * (i+1) = 3*i + 3 from by ring,
              show 3*i + 3 + 1 = (3*i+1) + 3 from by ring]
            show (RGBAfromYCbCrInterleaved rest).getD (4*i+2) 0 = _
            exact ih3
          · rw [show 4 * (i+1) + 3 = (4*i+3) + 4 from by ring]
            show (RGBAfromYCbCrInterleaved rest).getD (4*i+3) 0 = _
            exact ih4

/-- Witness for C5 (amended) at a concrete pixel in both forms. -/
theorem claimC5_witness :
    (RGBAfromYCbCrPlanar [100] [120] [130]).getD (4*0+1) 0 =
      toUint8Clamp ((100:ℚ) - 0.34414 * (120 - 128) - 0.71414 * (130 - 128)) ∧
    (RGBAfromYCbCrInterleaved [100, 120, 130]).getD (4*0+3) 0 = 255 := by
  constructor
  · have h := (claimC5_amended.1) 0 [100] [120] [130] (by norm_num) rfl rfl
    simpa using h.2.1
  · exact ((claimC5_amended.2) 0 [100, 120, 130] (by norm_num)).2.2.2

/-- C7 is FALSE as stated: with a single-image container, a supplied
out-of-range image index (here 5, with image count 1) does not produce
an error reply — the index is ignored and image 0 is decoded. -/
theorem claimC7_counterexample :
    (TiffContainer.mk [⟨1, 1, [⟨.u8, [7]⟩], 1, [8], none, none, none⟩]).images.length ≤ 5 ∧
    (handleDecodeRaster 1
      (TiffContainer.mk [⟨1, 1, [⟨.u8, [7]⟩], 1, [8], none, none, none⟩])
      (some 5)).ok = true := by
  constructor
  · decide
  · rfl

/-- C7 (amended): the decode replies with `ok: false`, no result, and a
non-empty error message whenever the container holds more than one image
and no image index was supplied, and whenever the container holds other
than exactly one image and the supplied index is out of range; with a
single-image container a supplied index is ignored and image 0 is
decoded successfully. -/
theorem claimC7_amended (id : ℕ) (c : TiffContainer) (ix : Option ℤ) :
    ((1 < c.images.length ∧ ix = none) ∨
      (c.images.length ≠ 1 ∧ ∃ i, ix = some i ∧ (i < 0 ∨ (c.images.length : ℤ) ≤ i)) →
      (handleDecodeRaster id c ix).ok = false ∧
      (handleDecodeRaster id c ix).result = none ∧
      ∃ msg, (handleDecodeRaster id c ix).error = some msg ∧ msg ≠ "") ∧
    (c.images.length = 1 →
      (handleDecodeRaster id c ix).ok = true ∧
      (handleDecodeRaster id c ix).result =
        some (payloadOfImage (c.images.getD 0 ⟨0, 0, [], 0, [], none, none, none⟩))) := by
  constructor
  · intro hbad
    unfold handleDecodeRaster decodeRaster
    rcases hbad with ⟨hcount, hix⟩ | ⟨hcount, i, hix, hrange⟩
    · subst hix
      rw [if_pos (by omega)]
      refine ⟨rfl, rfl, _, rfl, ?_⟩
      intro hmsg
      have hlen := congrArg String.length hmsg
      rw [String.length_append, String.length_append] at hlen
      have hpos : 0 < String.length ("[RawTiffPlugin] TIFF has ") := by decide
      simp at hlen
      omega
    · subst hix
      rw [if_pos (by omega)]
      simp only
      rw [if_pos hrange]
      refine ⟨rfl, rfl, _, rfl, ?_⟩
      intro hmsg
      have hlen := congrArg String.length hmsg
      rw [String.length_append, String.length_append, String.length_append] at hlen
      have hpos : 0 < String.length ("[RawTiffPlugin] imageIndex ") := by decide
      simp at hlen
      omega
  · intro h1
    unfold handleDecodeRaster decodeRaster
    rw [if_neg (by omega)]
    exact ⟨rfl, rfl⟩

/-- Witness for C7 (amended): a two-image container with no index is
refused; a single-image container with an out-of-range index decodes
image 0. -/
theorem claimC7_witness :
    (handleDecodeRaster 1
      (TiffContainer.mk [⟨1, 1, [⟨.u8, [7]⟩], 1, [8], none, none, none⟩,
        ⟨1, 1, [⟨.u8, [9]⟩], 1, [8], none, none, none⟩]) none).ok = false ∧
    (handleDecodeRaster 2
      (TiffContainer.mk [⟨1, 1, [⟨.u8, [7]⟩], 1, [8], none, none, none⟩])
      (some 5)).ok = true := by
  constructor
  · exact ((claimC7_amended 1 _ none).1 (Or.inl ⟨by decide, rfl⟩)).1
  · exact ((claimC7_amended 2 _ (some 5)).2 (by decide)).1

theorem runWarnings_count_le (msgs : List WarnMsg) (seen : List String) (key : String) :
    (runWarnings msgs seen).count key ≤ (if key ∈ seen then 0 else 1) := by
  induction msgs generalizing seen with
  | nil =>
      simp [runWarnings]
  | cons m rest ih =>
      unfold runWarnings logOnce
      by_cases hmem : poolWarnKey m ∈ seen
      · rw [if_pos hmem]
        simpa using ih seen
      · rw [if_neg hmem]
        simp only [if_pos rfl]
        rw [if_pos trivial]
        have htail := ih (poolWarnKey m :: seen)
        by_cases hkey : key = poolWarnKey m
        · subst hkey
          rw [if_neg hmem]
          rw [if_pos (List.mem_cons_self _ _)] at htail
          simp [List.count_cons]
          omega
        · rw [List.count_cons,
            if_neg (by simp only [beq_iff_eq]; exact fun hc => hkey hc.symm)]
          by_cases hks : key ∈ seen
          · rw [if_pos (List.mem_cons_of_mem _ hks)] at htail
            rw [if_pos hks]
            omega
          · rw [if_neg (by simp [hkey, hks])] at htail
            rw [if_neg hks]
            omega

/-- C8 (confirmed): for every dedup key, across any sequence of worker
warn messages handled through `logOnce` (starting from a fresh dedup
state), the warning for that key is surfaced at most once — never once
per call. -/
theorem claimC8 (msgs : List WarnMsg) (key : String) :
    (runWarnings msgs []).count key ≤ 1 := by
  have h := runWarnings_count_le msgs [] key
  simpa using h

theorem pickBestAux_lt :
    ∀ (l : List PoolEntry) (bi bp ci N : ℕ), bi < N → ci + l.length ≤ N →
      pickBestAux l bi bp ci < N
  | [], bi, bp, ci, N, hbi, _ => hbi
  | w :: rest, bi, bp, ci, N, hbi, hlen => by
      unfold pickBestAux
      split
      · exact pickBestAux_lt rest ci w.pending (ci + 1) N
          (by simp at hlen; omega) (by simp at hlen; omega)
      · exact pickBestAux_lt rest bi bp (ci + 1) N hbi (by simp at hlen; omega)

theorem pickBest_lt (ws : List PoolEntry) (h : ws ≠ []) : pickBest ws < ws.length := by
  unfold pickBest
  exact pickBestAux_lt ws 0 _ 0 ws.length (by cases ws with
    | nil => exact absurd rfl h
    | cons a t => simp) (by omega)

theorem natMapSet_of_fresh :
    ∀ (l : List (ℕ × ℕ)) (id v : ℕ), (∀ q ∈ l, q.1 ≠ id) →
      natMapSet l id v = l ++ [(id, v)]
  | [], id, v, _ => rfl
  | (k, w) :: rest, id, v, h => by
      unfold natMapSet
      rw [if_neg (h (k, w) (List.mem_cons_self _ _))]
      rw [natMapSet_of_fresh rest id v (fun q hq => h q (List.mem_cons_of_mem _ hq))]
      rfl

theorem natMapDelete_append_fresh (l : List (ℕ × ℕ)) (id v : ℕ)
    (h : ∀ q ∈ l, q.1 ≠ id) :
    natMapDelete (l ++ [(id, v)]) id = l := by
  unfold natMapDelete
  rw [List.filter_append]
  have h1 : l.filter (fun p => p.1 ≠ id) = l :=
    List.filter_eq_self.mpr (fun a ha => by simpa using h a ha)
  have h2 : [((id : ℕ), v)].filter (fun p : ℕ × ℕ => p.1 ≠ id) = [] := by
    simp
  rw [h1, h2, List.append_nil]

theorem set_getD_self :
    ∀ (l : List PoolEntry) (i : ℕ) (d : PoolEntry), i < l.length →
      l.set i (l.getD i d) = l
  | [], i, d, h => by simp at h
  | a :: t, 0, d, _ => rfl
  | a :: t, i + 1, d, h => by
      simp only [List.set_cons_succ, List.getD_cons_succ]
      rw [set_getD_self t i d (by simpa using h)]

/-- C10 (confirmed): when posting the request message throws, `request`
removes the just-added id→callback correlation entry, decrements the
chosen worker's pending count back, leaves the worker list exactly as it
was (only `_nextId` has moved on), and rejects the returned promise with
the thrown error. -/
theorem claimC10 (pool : WorkerPool) (e : String) (hne : pool.workers ≠ [])
    (hwf : PoolWf pool) :
    (poolRequest pool (some e)).1 = ⟨pool.workers, pool.nextId + 1⟩ ∧
    (poolRequest pool (some e)).2 = .rejected pool.nextId e := by
  have hbi : pickBest pool.workers < pool.workers.length := pickBest_lt _ hne
  have hmem : pool.workers.getD (pickBest pool.workers) ⟨0, []⟩ ∈ pool.workers := by
    rw [List.getD_eq_getElem _ _ hbi]
    exact List.getElem_mem _
  have hfresh : ∀ q ∈ (pool.workers.getD (pickBest pool.workers) ⟨0, []⟩).callbacks,
      q.1 ≠ pool.nextId := by
    intro q hq
    exact Nat.ne_of_lt (hwf _ hmem q hq)
  constructor
  · unfold poolRequest
    simp only
    rw [natMapSet_of_fresh _ _ _ hfresh,
      natMapDelete_append_fresh _ _ _ hfresh]
    rw [List.set_set]
    have hpend : max 0 ((pool.workers.getD (pickBest pool.workers) ⟨0, []⟩).pending + 1 - 1)
        = (pool.workers.getD (pickBest pool.workers) ⟨0, []⟩).pending := by omega
    rw [hpend]
    rw [set_getD_self pool.workers (pickBest pool.workers) ⟨0, []⟩ hbi]
  · rfl

/-- Witness for C10 at a concrete one-worker pool with an outstanding
entry: the failed dispatch leaves the bookkeeping untouched and rejects
with the thrown error. -/
theorem claimC10_witness :
    (poolRequest ⟨[⟨1, [(3, 0)]⟩], 5⟩ (some ("boom"))).1 = ⟨[⟨1, [(3, 0)]⟩], 6⟩ ∧
    (poolRequest ⟨[⟨1, [(3, 0)]⟩], 5⟩ (some ("boom"))).2 = .rejected 5 ("boom") := by
  have h := claimC10 ⟨[⟨1, [(3, 0)]⟩], 5⟩ ("boom") (by simp) (by decide)
  exact h

theorem getK_setK_same : ∀ (l : List (String × JVal)) (k : String) (v : JVal),
    getK (setK l k v) k = some v
  | [], k, v => by simp [setK, getK]
  | (k', w) :: rest, k, v => by
      unfold setK
      by_cases hk : k' = k
      · rw [if_pos hk]
        simp [getK]
      · rw [if_neg hk]
        unfold getK
        rw [if_neg hk]
        exact getK_setK_same rest k v

theorem getK_setK_ne : ∀ (l : List (String × JVal)) (k k' : String) (v : JVal),
    k ≠ k' → getK (setK l k v) k' = getK l k'
  | [], k, k', v, h => by
      simp [setK, getK]
      exact fun hc => absurd hc h
  | (k0, w) :: rest, k, k', v, h => by
      unfold setK
      by_cases hk : k0 = k
      · rw [if_pos hk]
        unfold getK
        rw [if_neg h, if_neg (hk ▸ h)]
      · rw [if_neg hk]
        unfold getK
        by_cases hk' : k0 = k'
        · rw [if_pos hk', if_pos hk']
        · rw [if_neg hk', if_neg hk']
          exact getK_setK_ne rest k k' v h

theorem setK_self : ∀ (l : List (String × JVal)) (k : String) (v : JVal),
    getK l k = some v → setK l k v = l
  | [], k, v, h => by simp [getK] at h
  | (k', w) :: rest, k, v, h => by
      unfold getK at h
      unfold setK
      by_cases hk : k' = k
      · rw [if_pos hk] at h ⊢
        obtain rfl : w = v := by simpa using h
        rw [hk]
      · rw [if_neg hk] at h ⊢
        rw [setK_self rest k v h]

theorem wfFields_head (k : String) (v : JVal) (rest : List (String × JVal))
    (h : wfFields ((k, v) :: rest) = true) :
    (∀ p ∈ rest, p.1 ≠ k) ∧ wfVal v = true ∧ wfFields rest = true := by
  unfold wfFields at h
  simp only [Bool.and_eq_true, Bool.not_eq_true'] at h
  refine ⟨?_, h.1.2, h.2⟩
  intro p hp hc
  have : rest.any (fun p => p.1 = k) = true :=
    List.any_eq_true.mpr ⟨p, hp, by simp [hc]⟩
  rw [this] at h
  exact Bool.noConfusion h.1.1

theorem getK_of_mem_wf : ∀ (fs : List (String × JVal)) (k : String) (v : JVal),
    wfFields fs = true → (k, v) ∈ fs → getK fs k = some v
  | [], k, v, _, hm => by simp at hm
  | (k', w) :: rest, k, v, hwf, hm => by
      obtain ⟨hno, hv, hrest⟩ := wfFields_head k' w rest hwf
      unfold getK
      rcases List.mem_cons.mp hm with heq | htail
      · injection heq with h1 h2
        subst h1
        subst h2
        rw [if_pos rfl]
      · have hne : k' ≠ k := fun hc => hno (k, v) htail (by rw [hc])
        rw [if_neg hne]
        exact getK_of_mem_wf rest k v hrest htail

theorem wfVal_of_mem : ∀ (fs : List (String × JVal)) (k : String) (v : JVal),
    wfFields fs = true → (k, v) ∈ fs → wfVal v = true
  | [], k, v, _, hm => by simp at hm
  | (k', w) :: rest, k, v, hwf, hm => by
      obtain ⟨hno, hv, hrest⟩ := wfFields_head k' w rest hwf
      rcases List.mem_cons.mp hm with heq | htail
      · injection heq with h1 h2
        rw [h2]
        exact hv
      · exact wfVal_of_mem rest k v hrest htail

theorem dmField_getK_not_mem : ∀ (bfs acc : List (String × JVal)) (k : String),
    (∀ p ∈ bfs, p.1 ≠ k) → getK (dmField acc bfs) k = getK acc k
  | [], acc, k, _ => by simp [dmField]
  | (k', bv) :: rest, acc, k, h => by
      unfold dmField
      rw [dmField_getK_not_mem rest _ k (fun p hp => h p (List.mem_cons_of_mem _ hp))]
      exact getK_setK_ne acc k' k _ (h (k', bv) (List.mem_cons_self _ _))

theorem dmField_getK_mem : ∀ (bfs acc : List (String × JVal)) (k : String) (bv : JVal),
    wfFields bfs = true → getK bfs k = some bv →
    getK (dmField acc bfs) k = some (mergeVal (getK acc k) bv)
  | [], acc, k, bv, _, hget => by simp [getK] at hget
  | (k', bv') :: rest, acc, k, bv, hwf, hget => by
      obtain ⟨hno, hv, hrest⟩ := wfFields_head k' bv' rest hwf
      unfold getK at hget
      unfold dmField
      by_cases hk : k' = k
      · rw [if_pos hk] at hget
        obtain rfl : bv' = bv := by simpa using hget
        subst hk
        rw [dmField_getK_not_mem rest _ k' hno]
        rw [getK_setK_same]
      · rw [if_neg hk] at hget
        rw [dmField_getK_mem rest _ k bv hrest hget]
        rw [getK_setK_ne acc k' k _ hk]

theorem mergeVal_obj_obj (ofs bfs : List (String × JVal)) :
    mergeVal (some (.obj ofs)) (.obj bfs) = .obj (dmField ofs bfs) := by
  simp [mergeVal]

theorem mergeVal_replace (cur : Option JVal) (bv : JVal)
    (h : (∀ bfs2, bv ≠ .obj bfs2) ∨ (∀ ofs, cur ≠ some (.obj ofs))) :
    mergeVal cur bv = bv := by
  cases bv with
  | obj bfs2 =>
      rcases h with h | h
      · exact absurd rfl (h bfs2)
      · cases cur with
        | none => simp [mergeVal]
        | some cv =>
            cases cv with
            | obj ofs => exact absurd rfl (h ofs)
            | nul => simp [mergeVal]
            | bool b => simp [mergeVal]
            | num q => simp [mergeVal]
            | str s => simp [mergeVal]
            | arr xs => simp [mergeVal]
  | nul =>
      cases cur with
      | none => simp [mergeVal]
      | some cv => cases cv <;> simp [mergeVal]
  | bool b =>
      cases cur with
      | none => simp [mergeVal]
      | some cv => cases cv <;> simp [mergeVal]
  | num q =>
      cases cur with
      | none => simp [mergeVal]
      | some cv => cases cv <;> simp [mergeVal]
  | str s =>
      cases cur with
      | none => simp [mergeVal]
      | some cv => cases cv <;> simp [mergeVal]
  | arr xs =>
      cases cur with
      | none => simp [mergeVal]
      | some cv => cases cv <;> simp [mergeVal]

theorem dmField_fixpoint : ∀ (fs acc : List (String × JVal)),
    (∀ p ∈ fs, ∃ w, getK acc p.1 = some w ∧ mergeVal (some w) p.2 = w) →
    dmField acc fs = acc
  | [], acc, _ => by simp [dmField]
  | (k, bv) :: rest, acc, h => by
      obtain ⟨w, hw1, hw2⟩ := h (k, bv) (List.mem_cons_self _ _)
      unfold dmField
      rw [hw1, hw2, setK_self acc k w hw1]
      exact dmField_fixpoint rest acc (fun p hp => h p (List.mem_cons_of_mem _ hp))

theorem sizeOf_fields_of_mem {k : String} {bfs2 bfs : List (String × JVal)}
    (hp : (k, JVal.obj bfs2) ∈ bfs) : sizeOf bfs2 < sizeOf bfs := by
  have h := List.sizeOf_lt_of_mem hp
  simp only [Prod.mk.sizeOf_spec, JVal.obj.sizeOf_spec] at h
  omega

/-- Idempotence core: for a well-formed `b` object, merging it into any
state twice equals merging it once, and merging an object into itself is
the identity. -/
theorem dmField_idem (bfs : List (String × JVal)) (hwf : wfFields bfs = true) :
    dmField bfs bfs = bfs ∧
    ∀ afs, dmField (dmField afs bfs) bfs = dmField afs bfs := by
  constructor
  · apply dmField_fixpoint
    rintro ⟨k, v⟩ hp
    dsimp only
    refine ⟨v, getK_of_mem_wf bfs k v hwf hp, ?_⟩
    cases v with
    | obj vfs =>
        have hv : wfFields vfs = true := wfVal_of_mem bfs k _ hwf hp
        have hsz : sizeOf vfs < sizeOf bfs := sizeOf_fields_of_mem hp
        rw [mergeVal_obj_obj, (dmField_idem vfs hv).1]
    | nul => exact mergeVal_replace _ _ (Or.inl (by intro b hc; exact JVal.noConfusion hc))
    | bool b => exact mergeVal_replace _ _ (Or.inl (by intro b2 hc; exact JVal.noConfusion hc))
    | num q => exact mergeVal_replace _ _ (Or.inl (by intro b hc; exact JVal.noConfusion hc))
    | str s => exact mergeVal_replace _ _ (Or.inl (by intro b hc; exact JVal.noConfusion hc))
    | arr xs => exact mergeVal_replace _ _ (Or.inl (by intro b hc; exact JVal.noConfusion hc))
  · intro afs
    apply dmField_fixpoint
    rintro ⟨k, bv⟩ hp
    dsimp only
    have hget : getK bfs k = some bv := getK_of_mem_wf bfs k bv hwf hp
    refine ⟨mergeVal (getK afs k) bv, dmField_getK_mem bfs afs k bv hwf hget, ?_⟩
    cases bv with
    | obj bfs2 =>
        have hv : wfFields bfs2 = true := wfVal_of_mem bfs k _ hwf hp
        have hsz : sizeOf bfs2 < sizeOf bfs := sizeOf_fields_of_mem hp
        rcases hcur : getK afs k with _ | cv
        · rw [mergeVal_replace none (JVal.obj bfs2)
            (Or.inr (fun ofs hc => Option.noConfusion hc))]
          rw [mergeVal_obj_obj, (dmField_idem bfs2 hv).1]
        · cases cv with
          | obj ofs =>
              rw [mergeVal_obj_obj, mergeVal_obj_obj, (dmField_idem bfs2 hv).2 ofs]
          | nul =>
              rw [mergeVal_replace (some JVal.nul) (JVal.obj bfs2)
                (Or.inr (fun ofs hc => by simp at hc))]
              rw [mergeVal_obj_obj, (dmField_idem bfs2 hv).1]
          | bool b =>
              rw [mergeVal_replace (some (JVal.bool b)) (JVal.obj bfs2)
                (Or.inr (fun ofs hc => by simp at hc))]
              rw [mergeVal_obj_obj, (dmField_idem bfs2 hv).1]
          | num q =>
              rw [mergeVal_replace (some (JVal.num q)) (JVal.obj bfs2)
                (Or.inr (fun ofs hc => by simp at hc))]
              rw [mergeVal_obj_obj, (dmField_idem bfs2 hv).1]
          | str s =>
              rw [mergeVal_replace (some (JVal.str s)) (JVal.obj bfs2)
                (Or.inr (fun ofs hc => by simp at hc))]
              rw [mergeVal_obj_obj, (dmField_idem bfs2 hv).1]
          | arr xs =>
              rw [mergeVal_replace (some (JVal.arr xs)) (JVal.obj bfs2)
                (Or.inr (fun ofs hc => by simp at hc))]
              rw [mergeVal_obj_obj, (dmField_idem bfs2 hv).1]
    | nul =>
        rw [mergeVal_replace (getK afs k) JVal.nul
          (Or.inl (fun b hc => JVal.noConfusion hc))]
        exact mergeVal_replace _ _ (Or.inl (fun b hc => JVal.noConfusion hc))
    | bool b =>
        rw [mergeVal_replace (getK afs k) (JVal.bool b)
          (Or.inl (fun b2 hc => JVal.noConfusion hc))]
        exact mergeVal_replace _ _ (Or.inl (fun b2 hc => JVal.noConfusion hc))
    | num q =>
        rw [mergeVal_replace (getK afs k) (JVal.num q)
          (Or.inl (fun b hc => JVal.noConfusion hc))]
        exact mergeVal_replace _ _ (Or.inl (fun b hc => JVal.noConfusion hc))
    | str s =>
        rw [mergeVal_replace (getK afs k) (JVal.str s)
          (Or.inl (fun b hc => JVal.noConfusion hc))]
        exact mergeVal_replace _ _ (Or.inl (fun b hc => JVal.noConfusion hc))
    | arr xs =>
        rw [mergeVal_replace (getK afs k) (JVal.arr xs)
          (Or.inl (fun b hc => JVal.noConfusion hc))]
        exact mergeVal_replace _ _ (Or.inl (fun b hc => JVal.noConfusion hc))
termination_by sizeOf bfs

/-- C9 (confirmed): `deepMerge` merges nested plain objects key by key —
a key whose incoming and current values are both non-array objects is
merged recursively, any other incoming value (array, scalar, null)
replaces the current value wholesale, and keys absent from the later
layer are left untouched — and it is idempotent in application order:
for configuration objects `a`, `b` (well-formed: objects in `b` have
duplicate-free keys), `deepMerge(deepMerge(a, b), b)` is structurally
identical to `deepMerge(a, b)`. -/
theorem claimC9 (afs bfs : List (String × JVal)) (hwf : wfFields bfs = true) :
    (∀ k bfs2 ofs, getK bfs k = some (.obj bfs2) → getK afs k = some (.obj ofs) →
      getK (dmField afs bfs) k = some (.obj (dmField ofs bfs2))) ∧
    (∀ k bv, getK bfs k = some bv →
      ((∀ bfs2, bv ≠ .obj bfs2) ∨ (∀ ofs, getK afs k ≠ some (.obj ofs))) →
      getK (dmField afs bfs) k = some bv) ∧
    (∀ k, (∀ p ∈ bfs, p.1 ≠ k) → getK (dmField afs bfs) k = getK afs k) ∧
    deepMerge (deepMerge (.obj afs) (.obj bfs)) (.obj bfs) =
      deepMerge (.obj afs) (.obj bfs) := by
  refine ⟨?_, ?_, ?_, ?_⟩
  · intro k bfs2 ofs hb ha
    rw [dmField_getK_mem bfs afs k _ hwf hb, ha, mergeVal_obj_obj]
  · intro k bv hb hrep
    rw [dmField_getK_mem bfs afs k _ hwf hb, mergeVal_replace _ _ hrep]
  · intro k hnot
    exact dmField_getK_not_mem bfs afs k hnot
  · show JVal.obj (dmField (dmField afs bfs) bfs) = JVal.obj (dmField afs bfs)
    rw [(dmField_idem bfs hwf).2 afs]

/-- Witness for C9 at a concrete layered configuration: `b` overrides a
nested gpu option and adds a key; re-applying `b` changes nothing. -/
theorem claimC9_witness :
    wfFields [("gpu", JVal.obj [("force", JVal.bool true)]), ("chan", JVal.arr [JVal.num 2])]
      = true ∧
    deepMerge
      (deepMerge
        (.obj [("gpu", JVal.obj [("pref", JVal.bool true), ("force", JVal.bool false)]),
          ("x", JVal.num 5)])
        (.obj [("gpu", JVal.obj [("force", JVal.bool true)]), ("chan", JVal.arr [JVal.num 2])]))
      (.obj [("gpu", JVal.obj [("force", JVal.bool true)]), ("chan", JVal.arr [JVal.num 2])]) =
    deepMerge
      (.obj [("gpu", JVal.obj [("pref", JVal.bool true), ("force", JVal.bool false)]),
        ("x", JVal.num 5)])
      (.obj [("gpu", JVal.obj [("force", JVal.bool true)]), ("chan", JVal.arr [JVal.num 2])]) := by
  have hwf : wfFields
      [("gpu", JVal.obj [("force", JVal.bool true)]), ("chan", JVal.arr [JVal.num 2])] = true := by
    simp [wfFields, wfVal]
  exact ⟨hwf, (claimC9 _ _ hwf).2.2.2⟩

end GeoTiff
